import Mathlib

/-!
Verification development for the evertest cloud test API
(action interpreter / assertion evaluator / step runner / session orchestrator).

The JavaScript sources (src/automation.js, src/utils.js, src/index.js) are
shallowly embedded: pure computations are translated directly; every browser
or driver operation (playwright calls, page evaluation, CDP) is an oracle
field of an `Env` record supplying that call site's outcome, so a single
`Env` describes one concrete execution of an action.  Fallible operations
are `Except String`.  All definitions are executable.
-/

namespace Evertest

/-! ### String helpers (kernel-friendly replacements for JS string methods) -/

/-- `leadsWith pat l` is true when `pat` is an initial segment of `l`. -/
def leadsWith : List Char → List Char → Bool
  | [], _ => true
  | _ :: _, [] => false
  | a :: as, b :: bs => a == b && leadsWith as bs

/-- `hasSub pat hay`: does `hay` contain `pat` as a contiguous run?
Models JS `String.prototype.includes`. -/
def hasSub (pat : List Char) : List Char → Bool
  | [] => pat.isEmpty
  | c :: rest => leadsWith pat (c :: rest) || hasSub pat rest

/-- JS `hay.includes(pat)`. -/
def strIncludes (hay pat : String) : Bool :=
  hasSub pat.toList hay.toList

/-- JS `toLowerCase()` (ASCII range, which is what `Char.toLower` covers). -/
def lowerStr (s : String) : String :=
  String.mk (s.toList.map Char.toLower)

/-- JS `trim()` (ASCII whitespace). -/
def trimStr (s : String) : String :=
  String.mk (((s.toList.dropWhile Char.isWhitespace).reverse.dropWhile
      Char.isWhitespace).reverse)

/-- A character allowed by the `[^\s@]` class of the ValidEmail regex. -/
def emailChar (c : Char) : Bool :=
  !c.isWhitespace && c != '@'

/-- Is there a `'.'` in the list that is not its last element? -/
def dotNotLast : List Char → Bool
  | [] => false
  | [_] => false
  | c :: d :: rest => c == '.' || dotNotLast (d :: rest)

/-- The regex `^[^\s@]+@[^\s@]+\.[^\s@]+$` from the `ValidEmail` assertion:
exactly one `'@'`, a nonempty local part, and after the `'@'` a nonempty
`[^\s@]` run containing an interior dot (not first, not last). -/
def validEmail (s : String) : Bool :=
  match s.splitOn "@" with
  | [a, b] =>
      !a.isEmpty && a.toList.all emailChar &&
      !b.isEmpty && b.toList.all emailChar &&
      (match b.toList with
       | [] => false
       | _ :: rest => dotNotLast rest)
  | _ => false

/-- JS template interpolation of a possibly-undefined string. -/
def jsStr : Option String → String
  | some s => s
  | none => "undefined"

/-- JS template interpolation of a possibly-undefined number. -/
def jsIntStr : Option Int → String
  | some i => toString i
  | none => "undefined"

/-! ### WHATWG `URL` model

`normalizeUrl` in src/utils.js calls the platform's `new URL(url)`,
conditionally strips one trailing slash from `pathname`, and returns
`href`.  The platform parser is modelled here for hierarchical
`scheme://authority/path?query#fragment` URLs: components are kept as
character lists, empty paths serialize as "/", and empty path segments are
preserved (as WHATWG does).  Strings that do not fit this shape (no
`"://"`, empty scheme or authority, bad scheme characters) are treated as
parse failures, which in `normalizeUrl` means the input is returned
unchanged — matching the `catch` branch of the source. -/

def schemeChar (c : Char) : Bool :=
  c.isAlpha || c.isDigit || c == '+' || c == '-' || c == '.'

def authChar (c : Char) : Bool :=
  c != '/' && c != '?' && c != '#'

def pathChar (c : Char) : Bool :=
  c != '?' && c != '#'

def queryChar (c : Char) : Bool :=
  c != '#'

structure UrlObj where
  scheme : List Char
  authority : List Char
  path : List Char
  query : Option (List Char)
  fragment : Option (List Char)
deriving DecidableEq

/-- Split off the scheme at the first `":"`, requiring it to be followed by
`"//"`. -/
def splitScheme : List Char → Option (List Char × List Char)
  | [] => none
  | c :: cs =>
      if c = ':' then
        match cs with
        | '/' :: '/' :: rest => some ([], rest)
        | _ => none
      else (splitScheme cs).map (fun p => (c :: p.1, p.2))

/-- Parse the query/fragment tail that follows the path. -/
def parseQueryFrag : List Char → Option (List Char) × Option (List Char)
  | [] => (none, none)
  | '?' :: qs =>
      (match qs.dropWhile queryChar with
       | '#' :: fs => (some (qs.takeWhile queryChar), some fs)
       | _ => (some (qs.takeWhile queryChar), none))
  | '#' :: fs => (none, some fs)
  | _ => (none, none)

def parseChars (l : List Char) : Option UrlObj :=
  match splitScheme l with
  | none => none
  | some (sch, rest) =>
      if sch.isEmpty then none
      else if !sch.all schemeChar then none
      else
        let auth := rest.takeWhile authChar
        let tail := rest.dropWhile authChar
        if auth.isEmpty then none
        else
          let pathCs := tail.takeWhile pathChar
          let rest2 := tail.dropWhile pathChar
          let path := if pathCs.isEmpty then ['/'] else pathCs
          let qf := parseQueryFrag rest2
          some ⟨sch, auth, path, qf.1, qf.2⟩

def parseUrl (s : String) : Option UrlObj :=
  parseChars s.toList

/-- Serialization of the query/fragment tail. -/
def qfChars (u : UrlObj) : List Char :=
  (match u.query with | some q => '?' :: q | none => []) ++
  (match u.fragment with | some f => '#' :: f | none => [])

/-- The `href` getter: `scheme://authority path ?query #fragment`. -/
def hrefChars (u : UrlObj) : List Char :=
  u.scheme ++ ':' :: '/' :: '/' :: (u.authority ++ (u.path ++ qfChars u))

def urlHref (u : UrlObj) : String :=
  String.mk (hrefChars u)

/-- src/utils.js `normalizeUrl`: parse; if the pathname ends with `/` and
has length > 1, drop the last character; return `href`.  On parse failure
return the input unchanged. -/
def normalizeUrl (s : String) : String :=
  match parseUrl s with
  | none => s
  | some u =>
      if u.path.getLast? = some '/' ∧ 1 < u.path.length then
        urlHref { u with path := u.path.dropLast }
      else urlHref u

/-- Does the character list end in two consecutive slashes? -/
def twoSlashSuffix (p : List Char) : Bool :=
  match p.reverse with
  | '/' :: '/' :: _ => true
  | _ => false

/-! ### Data model (§3 of the code: action / descriptor / results) -/

/-- The `xpath` field of an element descriptor is a string or a list of
strings in the source; both shapes are kept. -/
inductive XPathVal
  | str (s : String)
  | list (l : List String)
deriving DecidableEq

/-- `Array.isArray(xpath) ? xpath : [xpath]` -/
def xpathToList : XPathVal → List String
  | .str s => [s]
  | .list l => l

structure ElementDescriptor where
  uniqueSelector : Option String
  xpath : Option XPathVal
  isAlert : Bool
  value : Option String
  textContent : Option String
deriving DecidableEq

structure VariableDescriptor where
  name : Option String
  length : Option Nat
  value : Option String
deriving DecidableEq

structure StorageData where
  name : String
  type : String
  content : String
deriving DecidableEq

structure IframeIdentifier where
  src : Option String
deriving DecidableEq

structure AssertionEntry where
  value : Option String
deriving DecidableEq

/-- One declarative step.  The source's `variable` field is called
`variableDesc` here because `variable` is reserved in Lean. -/
structure Action where
  type : String
  sequence : Option Nat
  description : Option String
  element : Option ElementDescriptor
  isTopFrame : Option Bool
  iframeIdentifier : Option IframeIdentifier
  url : Option String
  value : Option String
  variableDesc : Option VariableDescriptor
  scrollX : Option Int
  scrollY : Option Int
  containerXPath : Option (List String)
  storageData : Option StorageData
  dropTarget : Option ElementDescriptor
  wait : Option Nat
  assertions : List (String × AssertionEntry)
deriving DecidableEq

/-- An action with every field absent; concrete test inputs are built from
it with structure-update syntax. -/
def blankAction : Action :=
  ⟨"", none, none, none, none, none, none, none, none, none, none, none,
   none, none, none, []⟩

/-- `{ type, message, success }` produced by the assertion evaluator. -/
structure AssertionResult where
  type : String
  message : String
  success : Bool
deriving DecidableEq

/-- `{ success, message, assertions }` returned by `performAction`. -/
structure ActionResult where
  success : Bool
  message : String
  assertions : List AssertionResult
deriving DecidableEq

/-- A step record pushed by the step runner. -/
structure StepResult where
  sequence : Nat
  description : String
  status : String
  message : String
  assertions : List AssertionResult
deriving DecidableEq

/-! ### Driver environment

One `Env` captures the outcomes of every browser/driver call site that a
single `performAction` execution (plus its assertion pass) can reach.
`Except String α` models an awaited promise that either resolves with `α`
or rejects with an error whose `.message` is the carried string. -/

structure BBox where
  x : Int
  y : Int
  width : Int
  height : Int
deriving DecidableEq

structure Env where
  /-- `waitForIframeBySrc` (frame polling loop): found, or timeout error. -/
  iframeLookup : Except String Unit
  /-- successive values returned by `frame.url()` (k-th call). -/
  frameUrl : Nat → String
  /-- `frame.goto(url, networkidle)` in `System_Navigate`. -/
  gotoRes : Except String Unit
  /-- `waitForSelector(sel)` keyed by the selector string. -/
  waitForSelector : String → Except String Unit
  /-- `page.$(sel)` / `frame.$(sel)`: an element handle or `null`. -/
  query : String → Option Unit
  /-- the `offsetParent !== null` evaluation in `ensureClickable`. -/
  visibleEval : String → Except String Bool
  /-- the tag/type detection evaluation of the `change` case. -/
  elementTypeEval : Except String (Option String)
  /-- value produced by `resolveVariableValue` (random generators). -/
  variableResolved : String
  /-- `frame.fill`. -/
  fillRes : Except String Unit
  /-- `dispatchEvents` page evaluation. -/
  dispatchRes : Except String Unit
  /-- `frame.check(sel, force)` on a checkbox. -/
  checkRes : Except String Unit
  /-- the id lookup evaluation of the checkbox label fallback. -/
  inputIdEval : Except String (Option String)
  /-- `frame.click('label[for=...]', force)`. -/
  labelClickRes : Except String Unit
  /-- `frame.check(sel)` on a radio. -/
  radioCheckRes : Except String Unit
  /-- `frame.selectOption`. -/
  selectRes : Except String Unit
  /-- `page.hover`. -/
  hoverRes : Except String Unit
  /-- container scroll evaluation. -/
  containerScrollRes : Except String Unit
  /-- window scroll evaluation. -/
  windowScrollRes : Except String Unit
  /-- `page.keyboard.press`. -/
  keyPressRes : Except String Unit
  /-- `elementHandle.boundingBox()` in the `mousedown` case. -/
  mousedownBox : Except String (Option BBox)
  /-- `frame.mouse.move`. -/
  mouseMoveRes : Except String Unit
  /-- `frame.mouse.down`. -/
  mouseDownRes : Except String Unit
  /-- `frame.mouse.up`. -/
  mouseUpRes : Except String Unit
  /-- `atob` on the base64 payload of `storageData.content`. -/
  atobRes : Except String Unit
  /-- `page.setInputFiles`. -/
  setInputFilesRes : Except String Unit
  /-- `element.boundingBox()` in `dragstart`. -/
  dragstartBox : Except String (Option BBox)
  /-- `element.boundingBox()` of the drop target in `dragend`. -/
  dragendBox : Except String (Option BBox)
  /-- `context().newCDPSession(page)`. -/
  cdpSessionRes : Except String Unit
  /-- `page.addStyleTag` (no-scroll style). -/
  addStyleRes : Except String Unit
  /-- `client.send('Input.dispatchMouseEvent', ...)`. -/
  cdpSendRes : Except String Unit
  /-- the viewport-center fallback evaluation in `dragend`. -/
  viewportCenterRes : Except String Unit
  /-- the style-removal evaluation in `dragend`. -/
  removeStyleRes : Except String Unit
  /-- `page.title()`. -/
  pageTitle : Except String String
  /-- `document.body.innerText` (raw; the source lowercases it). -/
  pageInnerText : Except String String
  /-- the guarded `locator.count() > 0 && locator.first().isVisible()`
  check of `elementIsVisible`, per xpath (its exceptions are swallowed
  by the inner `try`, hence a plain `Bool`). -/
  xpVisible : String → Bool
  /-- whether `page.waitForEvent("download")` fires within 5 s. -/
  downloadStarted : Bool

/-- An environment in which every driver call succeeds; base for the
concrete executions used below. -/
def okEnv : Env :=
  { iframeLookup := .ok ()
    frameUrl := fun _ => ""
    gotoRes := .ok ()
    waitForSelector := fun _ => .ok ()
    query := fun _ => some ()
    visibleEval := fun _ => .ok true
    elementTypeEval := .ok (some "text")
    variableResolved := ""
    fillRes := .ok ()
    dispatchRes := .ok ()
    checkRes := .ok ()
    inputIdEval := .ok none
    labelClickRes := .ok ()
    radioCheckRes := .ok ()
    selectRes := .ok ()
    hoverRes := .ok ()
    containerScrollRes := .ok ()
    windowScrollRes := .ok ()
    keyPressRes := .ok ()
    mousedownBox := .ok (some ⟨0, 0, 10, 10⟩)
    mouseMoveRes := .ok ()
    mouseDownRes := .ok ()
    mouseUpRes := .ok ()
    atobRes := .ok ()
    setInputFilesRes := .ok ()
    dragstartBox := .ok (some ⟨0, 0, 10, 10⟩)
    dragendBox := .ok (some ⟨0, 0, 10, 10⟩)
    cdpSessionRes := .ok ()
    addStyleRes := .ok ()
    cdpSendRes := .ok ()
    viewportCenterRes := .ok ()
    removeStyleRes := .ok ()
    pageTitle := .ok ""
    pageInnerText := .ok ""
    xpVisible := fun _ => true
    downloadStarted := true }

/-! ### Frame locator, element resolver, clickability (src/automation.js) -/

/-- JS truthiness of an optional string field. -/
def strTruthy : Option String → Bool
  | some s => s != ""
  | none => false

/-- JS truthiness of `element.xpath` (an empty string is falsy, an empty
array is truthy). -/
def xpathTruthy : Option XPathVal → Bool
  | some (.str s) => s != ""
  | some (.list _) => true
  | none => false

/-- `action.isTopFrame === false && action.iframeIdentifier?.src` — the
guard of `getFrameContext`. -/
def iframeCondition (a : Action) : Bool :=
  (match a.isTopFrame with | some false => true | _ => false) &&
  (match a.iframeIdentifier with
   | some idd => strTruthy idd.src
   | none => false)

/-- `getFrameContext`: the top page, or the iframe poll (which can throw a
"not found within timeout" error). -/
def getFrameContext (env : Env) (a : Action) : Except String Unit :=
  if iframeCondition a then env.iframeLookup else .ok ()

/-- `{ selector, found }` from `resolveSelector` (the raw element handle is
not modelled separately: its presence coincides with `found`). -/
structure ResolveRes where
  selector : Option String
  found : Bool
deriving DecidableEq

/-- The xpath loop of `resolveSelector`: try `xpath=<xp>` candidates in
order, first `waitForSelector` success wins; failures are swallowed. -/
def resolveXpaths (env : Env) : List String → ResolveRes
  | [] => ⟨none, false⟩
  | xp :: rest =>
      match env.waitForSelector ("xpath=" ++ xp) with
      | .ok _ => ⟨some ("xpath=" ++ xp), true⟩
      | .error _ => resolveXpaths env rest

/-- src/automation.js `resolveSelector`: `uniqueSelector` first (when
truthy), then the xpath list (when truthy); not-found otherwise. -/
def resolveSelector (env : Env) (element : Option ElementDescriptor) :
    ResolveRes :=
  match element with
  | none => ⟨none, false⟩
  | some el =>
      let tryXpath : ResolveRes :=
        if xpathTruthy el.xpath then
          match el.xpath with
          | some xv => resolveXpaths env (xpathToList xv)
          | none => ⟨none, false⟩
        else ⟨none, false⟩
      if strTruthy el.uniqueSelector then
        match el.uniqueSelector with
        | some us =>
            (match env.waitForSelector us with
             | .ok _ => ⟨some us, true⟩
             | .error _ => tryXpath)
        | none => tryXpath
      else tryXpath

/-- `{ success, message, selector }` from `ensureClickable`. -/
structure ClickRes where
  success : Bool
  message : String
  selector : Option String
deriving DecidableEq

/-- The candidate loop of `ensureClickable`: wait for the selector, get a
handle, check `offsetParent !== null`; any failure moves to the next
candidate. -/
def ensureClickableAux (env : Env) : List String → ClickRes
  | [] => ⟨false, "Element is not visible", none⟩
  | xp :: rest =>
      let sel := "xpath=" ++ xp
      match env.waitForSelector sel with
      | .error _ => ensureClickableAux env rest
      | .ok _ =>
          match env.query sel with
          | none => ensureClickableAux env rest
          | some _ =>
              match env.visibleEval sel with
              | .error _ => ensureClickableAux env rest
              | .ok vis =>
                  if vis then ⟨true, "Element is clickable", some sel⟩
                  else ensureClickableAux env rest

/-- src/automation.js `ensureClickable` (the `timeout` argument is unused
beyond the per-candidate waits, as in the source). -/
def ensureClickable (env : Env) (xpath : XPathVal) (_timeout : Nat) :
    ClickRes :=
  ensureClickableAux env (xpathToList xpath)

/-! ### Assertion evaluator (src/utils.js `runAssertions`, consolidated
revision: `downloadStarted` is the 5-second `download` event wait). -/

/-- The xpaths the `elementIsVisible` loop iterates over.  `for..of` on a
JS string iterates its characters, so a string-valued `xpath` yields its
one-character strings. -/
def visIterList : XPathVal → List String
  | .str s => s.toList.map (fun c => String.mk [c])
  | .list l => l

/-- JS truthiness of `element?.xpath?.length` (zero length is falsy). -/
def xpathLenTruthy : Option ElementDescriptor → Bool
  | none => false
  | some el =>
      match el.xpath with
      | none => false
      | some (.str s) => s.length != 0
      | some (.list l) => l.length != 0

/-- The `elementIsVisible` candidate loop: succeed at the first visibly
matching xpath. -/
def anyVisible (env : Env) : List String → Bool
  | [] => false
  | xp :: rest => env.xpVisible xp || anyVisible env rest

/-- One arm of the `switch (type)` in `runAssertions`: evaluates a single
assertion kind to `(success, message)`.  `page.title()` and the innerText
evaluation are awaited driver calls and may reject. -/
def evalAssertion (env : Env) (element : Option ElementDescriptor)
    (ty : String) (expected : String) : Except String (Bool × String) :=
  match ty with
  | "ValidEmail" =>
      let ok := validEmail ((element.bind (fun el => el.value)).getD "")
      .ok (ok, if ok then "Valid email" else "Invalid email")
  | "formHasValue" =>
      let ok := ((element.bind (fun el => el.value)).getD "") == expected
      .ok (ok, if ok then "Value matches" else
        "Value is \"" ++ jsStr (element.bind (fun el => el.value)) ++
        "\", expected \"" ++ expected ++ "\"")
  | "pageHasTitle" =>
      match env.pageTitle with
      | .error e => .error e
      | .ok title =>
          let ok := strIncludes (lowerStr title) (lowerStr expected)
          .ok (ok, if ok then "Title includes value" else
            "Title does not include \"" ++ expected ++ "\"")
  | "pageHasText" =>
      match env.pageInnerText with
      | .error e => .error e
      | .ok txt =>
          let ok := strIncludes (lowerStr txt) (lowerStr expected)
          .ok (ok, if ok then "Page contains expected text" else
            "Page does not contain \"" ++ expected ++ "\"")
  | "elementHasText" =>
      let actualText :=
        match element.bind (fun el => el.textContent) with
        | some t => lowerStr (trimStr t)
        | none => ""
      let ok := strIncludes actualText (lowerStr expected)
      .ok (ok, if ok then "Element has expected text" else
        "Text \"" ++ expected ++ "\" not found in element")
  | "elementIsVisible" =>
      if !xpathLenTruthy element then
        .ok (false, "No xpath available to locate element")
      else
        let ok :=
          match element with
          | some el =>
              (match el.xpath with
               | some xv => anyVisible env (visIterList xv)
               | none => false)
          | none => false
        .ok (ok, if ok then "Element is visible" else "Element is not visible")
  | "downloadStarted" =>
      if env.downloadStarted then .ok (true, "Download has started")
      else .ok (false, "Expected download to start, but it did not within timeout")
  | _ => .ok (false, "⚠️ Unsupported assertion: " ++ ty)

/-- One iteration of the `runAssertions` loop: evaluate, then prefix the
message with "Assertion failed: " on failure. -/
def evalEntry (env : Env) (element : Option ElementDescriptor)
    (entry : String × AssertionEntry) : Except String AssertionResult :=
  let expected := entry.2.value.getD ""
  match evalAssertion env element entry.1 expected with
  | .error e => .error e
  | .ok sm =>
      .ok ⟨entry.1,
           if sm.1 then sm.2 else "Assertion failed: " ++ sm.2,
           sm.1⟩

/-- The `runAssertions` loop over the declared entries: push each result
and stop at (including) the first failure.  A rejecting driver call aborts
the whole evaluation. -/
def runAssertionsList (env : Env) (element : Option ElementDescriptor) :
    List (String × AssertionEntry) → Except String (List AssertionResult)
  | [] => .ok []
  | entry :: rest =>
      match evalEntry env element entry with
      | .error e => .error e
      | .ok r =>
          if r.success then
            match runAssertionsList env element rest with
            | .error e => .error e
            | .ok rs => .ok (r :: rs)
          else .ok [r]

/-- src/utils.js `runAssertions(action, page, element)`:
`action.assertions || {}` iterated in declared order. -/
def runAssertions (env : Env) (a : Action)
    (element : Option ElementDescriptor) :
    Except String (List AssertionResult) :=
  runAssertionsList env element a.assertions

/-! ### Action interpreter (src/automation.js `performAction`) -/

/-- The polling loop of the `navigate` case: at most `fuel` iterations
(10 in the source: `timeout` 10000 ms at `pollInterval` 1000 ms), each
reading `frame.url()` once.  Returns the match flag together with the
number of `frame.url()` calls made, so that the extra read in the message
template can be indexed. -/
def navPollLoop (frameUrl : Nat → String) (normExpected : String) :
    Nat → Nat → Bool × Nat
  | k, 0 => (false, k)
  | k, fuel + 1 =>
      if normalizeUrl (frameUrl k) == normExpected then (true, k + 1)
      else navPollLoop frameUrl normExpected (k + 1) fuel

/-- How the body of `performAction`'s `try` block leaves the dispatch
`switch`: an early `return` (which skips assertion evaluation), or a fall
through to the assertion block carrying the action's own
`success`/`message`. -/
inductive CoreOut
  | early (r : ActionResult)
  | done (success : Bool) (message : String)
deriving DecidableEq

/-- The `try` body of `performAction` up to (not including) the assertion
block: frame lookup, then the dispatch `switch`.  A `.error` is a thrown
JS exception, to be caught by the surrounding `catch`.  `scrollToElement`
and the inter-step `delay`s swallow their own errors and return nothing,
so they have no footprint here. -/
def performCore (env : Env) (a : Action) (arr : List Action) (idx : Nat) :
    Except String CoreOut :=
  match getFrameContext env a with
  | .error e => .error e
  | .ok _ =>
    match a.type with
    | "System_Navigate" =>
        (match env.gotoRes with
         | .error e => .error e
         | .ok _ => .ok (.done true ("Navigated to " ++ jsStr a.url)))
    | "navigate" =>
        let normalizedExpected := normalizeUrl (jsStr a.url)
        let poll := navPollLoop env.frameUrl normalizedExpected 0 10
        let finalUrl := normalizeUrl (env.frameUrl poll.2)
        .ok (.done true
          (if poll.1 then
            "Current URL matches expected (normalized): " ++ finalUrl
           else
            "Current URL does not match expected: " ++ finalUrl ++ " vs " ++
              normalizedExpected))
    | "mousedown" =>
        let nextActionIsFile : Bool :=
          decide (arr.length - 1 > idx) &&
          (match arr.get? (idx + 1) with
           | some a2 => a2.type == "fileSelect"
           | none => false)
        (match a.element with
         | none => .error "Cannot read properties of undefined (reading 'isAlert')"
         | some el =>
           if nextActionIsFile || el.isAlert then
             .ok (.early ⟨true, "File input: click skipped to avoid file dialog", []⟩)
           else if !xpathTruthy el.xpath then
             .error "XPath required for mousedown action"
           else
             match el.xpath with
             | none => .error "XPath required for mousedown action"
             | some xv =>
               let clickResult := ensureClickable env xv 10000
               if !clickResult.success then
                 .ok (.early ⟨false, clickResult.message, []⟩)
               else
                 match env.query (jsStr clickResult.selector) with
                 | none => .error "Element not found for mousedown action"
                 | some _ =>
                   match env.mousedownBox with
                   | .error e => .error e
                   | .ok none => .error "Could not get bounding box for element"
                   | .ok (some _) =>
                     match env.mouseMoveRes with
                     | .error e => .error e
                     | .ok _ =>
                       match env.mouseDownRes with
                       | .error e => .error e
                       | .ok _ =>
                         match env.mouseUpRes with
                         | .error e => .error e
                         | .ok _ =>
                           .ok (.done true "Mouse click simulated (isTrusted)"))
    | "change" =>
        (match a.element with
         | none => .error "Cannot read properties of undefined (reading 'isAlert')"
         | some el =>
           if el.isAlert then
             .ok (.early ⟨true, "change ignore in Js popup", []⟩)
           else
             let resolved := resolveSelector env a.element
             if !resolved.found then
               .error "Element not found for change action"
             else
               match env.elementTypeEval with
               | .error e => .error e
               | .ok elementType =>
                 match elementType with
                 | none => .error "Unable to detect element type"
                 | some et =>
                   if et == "text" then
                     -- `finalValue` is only ever passed to `frame.fill`
                     -- and `dispatchEvents`, both env oracles
                     let _finalValue : Option String :=
                       if strTruthy (a.variableDesc.bind (fun v => v.name)) then
                         some env.variableResolved
                       else a.value
                     match env.fillRes with
                     | .error e => .error e
                     | .ok _ =>
                       match env.dispatchRes with
                       | .error e => .error e
                       | .ok _ => .ok (.done true "Text entered")
                   else if et == "checkbox" then
                     match env.checkRes with
                     | .ok _ => .ok (.done true "Checkbox checked")
                     | .error checkErr =>
                       match env.inputIdEval with
                       | .error e => .error e
                       | .ok inputId =>
                         if strTruthy inputId then
                           (match env.labelClickRes with
                            | .error e => .error e
                            | .ok _ => .ok (.done true "Checkbox checked via label"))
                         else .error checkErr
                   else if et == "radio" then
                     match env.radioCheckRes with
                     | .error e => .error e
                     | .ok _ => .ok (.done true "Radio selected")
                   else if et == "select" then
                     match env.selectRes with
                     | .error e => .error e
                     | .ok _ => .ok (.done true "Option selected")
                   else .ok (.done false "Unsupported Type"))
    | "hover" =>
        let resolved := resolveSelector env a.element
        if !resolved.found then .error "Element not found for hover action"
        else
          match env.hoverRes with
          | .error e => .error e
          | .ok _ => .ok (.done true "Hovered")
    | "scroll" =>
        let scrollRes :=
          match a.containerXPath with
          | some _ => env.containerScrollRes
          | none => env.windowScrollRes
        (match scrollRes with
         | .error e => .error e
         | .ok _ =>
           .ok (.done true ("Scroll to (" ++ jsIntStr a.scrollX ++ ", " ++
             jsIntStr a.scrollY ++ ") successful")))
    | "Enter" | "Tab" | "ArrowUp" | "ArrowDown" | "ArrowLeft"
    | "ArrowRight" | "Escape" =>
        (match env.keyPressRes with
         | .error e => .error e
         | .ok _ => .ok (.done true "Successfully Pressed"))
    | "fileSelect" =>
        (match a.storageData with
         | none => .ok (.done false "File error")
         | some fileData =>
           let resolved := resolveSelector env a.element
           if !resolved.found then .error "Element not found for fileSelect action"
           else
             match env.atobRes with
             | .error e => .error e
             | .ok _ =>
               match env.setInputFilesRes with
               | .error e => .error e
               | .ok _ =>
                 .ok (.done true ("File \"" ++ fileData.name ++ "\" selected")))
    | "dragstart" =>
        let located := resolveSelector env a.element
        if !located.found then .ok (.done false "dragstart: element not found")
        else
          match env.dragstartBox with
          | .error e => .error e
          | .ok none => .ok (.done false "dragstart: cannot get bounding box")
          | .ok (some _) =>
            match env.cdpSessionRes with
            | .error e => .error e
            | .ok _ =>
              match env.addStyleRes with
              | .error e => .error e
              | .ok _ =>
                match env.cdpSendRes with
                | .error e => .error e
                | .ok _ => .ok (.done true "Drag started via Playwright CDP")
    | "dragend" =>
        let dropTargetTruthy : Bool :=
          (match a.dropTarget with
           | some dt => xpathTruthy dt.xpath || strTruthy dt.uniqueSelector
           | none => false)
        let coords : Except String Bool :=
          if dropTargetTruthy then
            let located := resolveSelector env a.dropTarget
            if located.found then
              match env.dragendBox with
              | .error e => .error e
              | .ok (some _) => .ok true
              | .ok none => .ok false
            else .ok false
          else .ok false
        (match coords with
         | .error e => .error e
         | .ok haveXY =>
           let fallback : Except String Unit :=
             if haveXY then .ok () else env.viewportCenterRes
           match fallback with
           | .error e => .error e
           | .ok _ =>
             match env.cdpSessionRes with
             | .error e => .error e
             | .ok _ =>
               match env.cdpSendRes with
               | .error e => .error e
               | .ok _ =>
                 match env.removeStyleRes with
                 | .error e => .error e
                 | .ok _ => .ok (.done true "Drag end via Playwright CDP"))
    | _ => .ok (.done false ("Unsupported action type: " ++ a.type))

/-- The assertion block at the end of `performAction`'s `try`: run the
evaluator, then combine with the action's own outcome.  The failing
message is `find(...)?.message || "No failed assertions"`. -/
def combineAssertions (success : Bool) (message : String)
    (assertions : List AssertionResult) : ActionResult :=
  let failedAssertions := assertions.any (fun x => x.success == false)
  let failedMsg :=
    match assertions.find? (fun x => x.success == false) with
    | some x => if x.message = "" then "No failed assertions" else x.message
    | none => "No failed assertions"
  ⟨success && !failedAssertions,
   if failedAssertions then failedMsg else message,
   assertions⟩

/-- src/automation.js `performAction(action, arr, index)`: the `try` body
(`performCore`), then — only when the switch fell through — the assertion
evaluator; every thrown error is converted by the `catch` into
`{ success: false, message: error.message, assertions: [] }`. -/
def performAction (env : Env) (a : Action) (arr : List Action) (idx : Nat) :
    ActionResult :=
  match performCore env a arr idx with
  | .error e => ⟨false, e, []⟩
  | .ok (.early r) => r
  | .ok (.done success message) =>
      match runAssertions env a a.element with
      | .error e => ⟨false, e, []⟩
      | .ok assertions => combineAssertions success message assertions

/-! ### Step runner (src/automation.js `runActionsStopOnFailure`)

The runner awaits `this.performAction(action, actions, i)` for each step;
in the embedding the per-step outcome is a function `perform` of the step
index and the action.  `StepOutcome.thrown` is the `catch (error)` branch
of the per-step `try` (present in the source even though the modelled
`performAction` resolves on every path). -/

inductive StepOutcome
  | res (r : ActionResult)
  | thrown (msg : String)

/-- `action.sequence || i + 1` (JS `||`: the number 0 is falsy). -/
def jsSequenceFallback (a : Action) (i : Nat) : Nat :=
  match a.sequence with
  | some n => if n == 0 then i + 1 else n
  | none => i + 1

/-- `action.description || action.type`. -/
def jsDescriptionFallback (a : Action) : String :=
  match a.description with
  | some d => if d == "" then a.type else d
  | none => a.type

/-- The loop of `runActionsStopOnFailure`, carrying the 0-based index:
push each step result; on a failed result or a thrown error push and stop
immediately. -/
def runStopAux (perform : Nat → Action → StepOutcome) :
    Nat → List Action → List StepResult
  | _, [] => []
  | i, a :: rest =>
      let seq := jsSequenceFallback a i
      let desc := jsDescriptionFallback a
      match perform i a with
      | .thrown e => [⟨seq, desc, "fail", e, []⟩]
      | .res ar =>
          let msg := if ar.message == "" then "Success" else ar.message
          if ar.success then
            ⟨seq, desc, "pass", msg, ar.assertions⟩ ::
              runStopAux perform (i + 1) rest
          else [⟨seq, desc, "fail", msg, ar.assertions⟩]

/-- src/automation.js `runActionsStopOnFailure(actions)`. -/
def runActionsStopOnFailure (perform : Nat → Action → StepOutcome)
    (actions : List Action) : List StepResult :=
  runStopAux perform 0 actions

/-- The per-step outcome of `this.performAction` driven by a per-step
environment; ties the runner to the modelled interpreter (which resolves
on every path, so no step throws). -/
def performOutcome (envs : Nat → Env) (actions : List Action) :
    Nat → Action → StepOutcome :=
  fun i a => .res (performAction (envs i) a actions i)

/-! ### Orchestrator (src/index.js `/api/run-automation`) -/

structure TestCase where
  id : Nat
  name : String
  url : Option String
  actions : List Action
deriving DecidableEq

structure Summary where
  passed : Nat
  failed : Nat
  skipped : Nat
  total : Nat
deriving DecidableEq

/-- src/index.js `summarizeResults`. -/
def summarizeResults (results : List StepResult) : Summary :=
  ⟨(results.filter (fun r => r.status == "pass")).length,
   (results.filter (fun r => r.status == "fail")).length,
   0,
   results.length⟩

structure TestReport where
  testCaseId : Nat
  testCaseName : String
  status : String
  passed : Nat
  failed : Nat
  skipped : Nat
  total : Nat
  results : List StepResult
deriving DecidableEq

/-- Per-test-case effects: the outcome of `navigateTo(testCase.url)` and
the per-step interpreter outcomes.  Screenshot capture and persistence
have their errors logged and swallowed, so they leave no trace in the
report. -/
structure CaseEnv where
  navResult : Except String Unit
  perform : Nat → Action → StepOutcome

/-- The per-test-case body of the orchestrator loop: navigate when a url
is present, run the step runner, summarize; a thrown error yields the
synthetic 1-failure report of the `catch` block. -/
def runTestCase (ce : CaseEnv) (tc : TestCase) : TestReport :=
  let navOutcome : Except String Unit :=
    match tc.url with
    | some _ => ce.navResult
    | none => .ok ()
  match navOutcome with
  | .error e =>
      ⟨tc.id, tc.name, "fail", 0, 1, 0, 1,
       [⟨1, "Test execution error", "fail", e, []⟩]⟩
  | .ok _ =>
      let results := runActionsStopOnFailure ce.perform tc.actions
      let summary := summarizeResults results
      let status := if summary.failed > 0 then "fail" else "pass"
      ⟨tc.id, tc.name, status, summary.passed, summary.failed,
       summary.skipped, summary.total, results⟩

/-- The `for (const testCase of testCasesToRun)` loop: every test case —
normal or error-contained — pushes exactly one report. -/
def runBatchAux (cenvs : Nat → CaseEnv) :
    Nat → List TestCase → List TestReport
  | _, [] => []
  | i, tc :: rest => runTestCase (cenvs i) tc :: runBatchAux cenvs (i + 1) rest

def runBatch (cenvs : Nat → CaseEnv) (tcs : List TestCase) :
    List TestReport :=
  runBatchAux cenvs 0 tcs

structure OverallReport where
  status : String
  totalTestCases : Nat
  passed : Nat
  failed : Nat
  testCases : List TestReport
deriving DecidableEq

/-- The aggregation at the end of the handler. -/
def overallReport (allResults : List TestReport) : OverallReport :=
  let totalPassed := allResults.foldl (fun acc r => acc + r.passed) 0
  let totalFailed := allResults.foldl (fun acc r => acc + r.failed) 0
  ⟨if totalFailed == 0 then "passed" else "failed",
   allResults.length, totalPassed, totalFailed, allResults⟩

/-- src/index.js (batch branch):
`testCases.filter(tc => tc.id !== authTestCaseId)` where
`authTestCaseId = socialAuth?.authTestCaseId` may be absent. -/
def testCasesToRun (testCases : List TestCase)
    (authTestCaseId : Option Nat) : List TestCase :=
  testCases.filter (fun tc =>
    match authTestCaseId with
    | some a => tc.id != a
    | none => true)

/-- The batch path of the handler after fetching: filter out the auth
test case, run every remaining case in order, aggregate. -/
def handleModuleIds (cenvs : Nat → CaseEnv) (fetched : List TestCase)
    (authTestCaseId : Option Nat) : OverallReport :=
  overallReport (runBatch cenvs (testCasesToRun fetched authTestCaseId))

/-! ### Specification-side predicates used by the theorems -/

/-- Did the step at index `i` on action `a` produce a successful action
result (a thrown step counts as not successful)? -/
def stepOkB (perform : Nat → Action → StepOutcome) (i : Nat) (a : Action) :
    Bool :=
  match perform i a with
  | .res ar => ar.success
  | .thrown _ => false

/-- Every step except the one for the final action succeeds. -/
def allButLastOk (perform : Nat → Action → StepOutcome) :
    Nat → List Action → Bool
  | _, [] => true
  | _, [_] => true
  | i, a :: b :: rest =>
      stepOkB perform i a && allButLastOk perform (i + 1) (b :: rest)

/-- The sequence number the runner would assign to each action in order. -/
def seqList : Nat → List Action → List Nat
  | _, [] => []
  | i, a :: rest => jsSequenceFallback a i :: seqList (i + 1) rest

/-- Well-formedness of a URL object: exactly the shape `parseChars`
guarantees of its output, and what `urlHref` needs for the serialization
to parse back to the same object. -/
def UrlWF (u : UrlObj) : Prop :=
  u.scheme ≠ [] ∧ u.scheme.all schemeChar = true ∧
  u.authority ≠ [] ∧ u.authority.all authChar = true ∧
  (∃ p', u.path = '/' :: p') ∧ u.path.all pathChar = true ∧
  (∀ q, u.query = some q → q.all queryChar = true)

/-! ### Concrete executions used by the witnesses and counterexamples -/

/-- A descriptor carrying `isAlert: true` and nothing else. -/
def alertDescriptor : ElementDescriptor := ⟨none, none, true, none, none⟩

/-- A `mousedown` on an alert descriptor with a `pageHasTitle` assertion
that does not hold on the page. -/
def alertMousedown : Action :=
  { blankAction with
      type := "mousedown"
      element := some alertDescriptor
      assertions := [("pageHasTitle", ⟨some "zzz"⟩)] }

/-- An environment whose page title is "Home" (so the `"zzz"` title
assertion fails when evaluated). -/
def homeTitleEnv : Env := { okEnv with pageTitle := .ok "Home" }

/-- A `System_Navigate` with one passing `pageHasTitle` assertion. -/
def navWithTitleAssertion : Action :=
  { blankAction with
      type := "System_Navigate"
      url := some "https://a.com"
      assertions := [("pageHasTitle", ⟨some "a"⟩)] }

def aSiteEnv : Env := { okEnv with pageTitle := .ok "A site" }

/-- A `navigate` action expecting `https://a.com/`. -/
def navigateAction : Action :=
  { blankAction with type := "navigate", url := some "https://a.com/" }

/-- An environment whose frame URL is already the expected one. -/
def atTargetEnv : Env := { okEnv with frameUrl := fun _ => "https://a.com" }

/-- A `mousedown` with no element descriptor: reading `isAlert` throws. -/
def elementlessMousedown : Action := { blankAction with type := "mousedown" }

/-- A step oracle on which every action fails. -/
def failPerform : Nat → Action → StepOutcome :=
  fun _ _ => .res ⟨false, "boom", []⟩

/-- A step oracle on which every action succeeds. -/
def passPerform : Nat → Action → StepOutcome :=
  fun _ _ => .res ⟨true, "ok", []⟩

/-- An action whose recorded `sequence` is the (falsy) number 0. -/
def zeroSequenceAction : Action :=
  { blankAction with type := "Enter", sequence := some 0 }

/-- A test case with a url but no actions. -/
def emptyTestCase : TestCase := ⟨7, "empty", some "https://a.com", []⟩

def emptyCaseEnv : CaseEnv := ⟨.ok (), passPerform⟩

/-- The parse of `"https://example.com/docs/"` in the URL model. -/
def docsUrlObj : UrlObj :=
  ⟨"https".toList, "example.com".toList, "/docs/".toList, none, none⟩

/-! ## Theorems -/

/-! ### Step-runner lemmas -/

theorem dropLast_all_cons {p : StepResult → Bool} {x : StepResult}
    {l : List StepResult} (hx : p x = true)
    (hl : l.dropLast.all p = true) : (x :: l).dropLast.all p = true := by
  cases l with
  | nil => rfl
  | cons y t => simpa [List.dropLast, List.all_cons, hx] using hl

theorem runStopAux_cons_thrown {perform : Nat → Action → StepOutcome}
    {i : Nat} {a : Action} {e : String} (rest : List Action)
    (h : perform i a = .thrown e) :
    runStopAux perform i (a :: rest) =
      [⟨jsSequenceFallback a i, jsDescriptionFallback a, "fail", e, []⟩] := by
  simp [runStopAux, h]

theorem runStopAux_cons_fail {perform : Nat → Action → StepOutcome}
    {i : Nat} {a : Action} {ar : ActionResult} (rest : List Action)
    (h : perform i a = .res ar) (har : ar.success = false) :
    runStopAux perform i (a :: rest) =
      [⟨jsSequenceFallback a i, jsDescriptionFallback a, "fail",
        if ar.message == "" then "Success" else ar.message,
        ar.assertions⟩] := by
  simp [runStopAux, h, har]

theorem runStopAux_cons_pass {perform : Nat → Action → StepOutcome}
    {i : Nat} {a : Action} {ar : ActionResult} (rest : List Action)
    (h : perform i a = .res ar) (har : ar.success = true) :
    runStopAux perform i (a :: rest) =
      ⟨jsSequenceFallback a i, jsDescriptionFallback a, "pass",
        if ar.message == "" then "Success" else ar.message,
        ar.assertions⟩ :: runStopAux perform (i + 1) rest := by
  simp [runStopAux, h, har]

theorem runStopAux_dropLast_pass
    (perform : Nat → Action → StepOutcome) :
    ∀ (acts : List Action) (i : Nat),
      ((runStopAux perform i acts).dropLast.all
        (fun r => r.status == "pass")) = true := by
  intro acts
  induction acts with
  | nil => intro i; rfl
  | cons a rest ih =>
      intro i
      cases h : perform i a with
      | thrown e => rw [runStopAux_cons_thrown rest h]; rfl
      | res ar =>
          cases har : ar.success with
          | false => rw [runStopAux_cons_fail rest h har]; rfl
          | true =>
              rw [runStopAux_cons_pass rest h har]
              exact dropLast_all_cons rfl (ih (i + 1))

theorem runStopAux_length_le (perform : Nat → Action → StepOutcome) :
    ∀ (acts : List Action) (i : Nat),
      (runStopAux perform i acts).length ≤ acts.length := by
  intro acts
  induction acts with
  | nil => intro i; exact Nat.le_refl 0
  | cons a rest ih =>
      intro i
      cases h : perform i a with
      | thrown e =>
          rw [runStopAux_cons_thrown rest h]
          exact Nat.succ_le_succ (Nat.zero_le rest.length)
      | res ar =>
          cases har : ar.success with
          | false =>
              rw [runStopAux_cons_fail rest h har]
              exact Nat.succ_le_succ (Nat.zero_le rest.length)
          | true =>
              rw [runStopAux_cons_pass rest h har]
              exact Nat.succ_le_succ (ih (i + 1))

theorem runStopAux_length_eq_iff (perform : Nat → Action → StepOutcome) :
    ∀ (acts : List Action) (i : Nat),
      ((runStopAux perform i acts).length = acts.length ↔
        allButLastOk perform i acts = true) := by
  intro acts
  induction acts with
  | nil => intro i; simp [runStopAux, allButLastOk]
  | cons a rest ih =>
      intro i
      cases h : perform i a with
      | thrown e =>
          rw [runStopAux_cons_thrown rest h]
          cases rest with
          | nil => simp [allButLastOk]
          | cons b t =>
              simp only [allButLastOk, stepOkB, h, Bool.false_and,
                List.length_cons, List.length_nil]
              constructor
              · intro hlen; exact absurd hlen (by omega)
              · intro hfalse; exact absurd hfalse (by simp)
      | res ar =>
          cases har : ar.success with
          | false =>
              rw [runStopAux_cons_fail rest h har]
              cases rest with
              | nil => simp [allButLastOk]
              | cons b t =>
                  simp only [allButLastOk, stepOkB, h, har, Bool.false_and,
                    List.length_cons, List.length_nil]
                  constructor
                  · intro hlen; exact absurd hlen (by omega)
                  · intro hfalse; exact absurd hfalse (by simp)
          | true =>
              rw [runStopAux_cons_pass rest h har]
              cases rest with
              | nil =>
                  simp [runStopAux, allButLastOk]
              | cons b t =>
                  have ih2 := ih (i + 1)
                  simp only [List.length_cons] at ih2 ⊢
                  simp only [allButLastOk, stepOkB, h, har, Bool.true_and]
                  constructor
                  · intro hlen
                    exact ih2.mp (by omega)
                  · intro hok
                    have hlen := ih2.mpr hok
                    omega

theorem runStopAux_map_seq (perform : Nat → Action → StepOutcome) :
    ∀ (acts : List Action) (i : Nat),
      (runStopAux perform i acts).map (fun r => r.sequence) =
        (seqList i acts).take (runStopAux perform i acts).length := by
  intro acts
  induction acts with
  | nil => intro i; rfl
  | cons a rest ih =>
      intro i
      cases h : perform i a with
      | thrown e => rw [runStopAux_cons_thrown rest h]; rfl
      | res ar =>
          cases har : ar.success with
          | false => rw [runStopAux_cons_fail rest h har]; rfl
          | true =>
              rw [runStopAux_cons_pass rest h har]
              simp only [seqList, List.map_cons, List.length_cons,
                List.take_succ_cons]
              exact congrArg (fun l => jsSequenceFallback a i :: l) (ih (i + 1))

/-- C3 — confirmed.  Under stop-on-failure, every step result other than
the last has status `pass`: a failing (or throwing) step is pushed and the
loop breaks immediately, so a `fail` can only be the final element of
`results` and no step after it is executed (results exist exactly for
executed steps). -/
theorem stop_on_failure_fail_is_last
    (perform : Nat → Action → StepOutcome) (actions : List Action) :
    ((runActionsStopOnFailure perform actions).dropLast.all
      (fun r => r.status == "pass")) = true :=
  runStopAux_dropLast_pass perform actions 0

/-- C4 — counterexample to the claim as stated: with a single action whose
step fails, `results.length = actions.length` yet not all steps passed, so
"lengths equal iff all steps passed" is false. -/
theorem results_length_eq_with_failing_last_step :
    (runActionsStopOnFailure failPerform [blankAction]).length =
      [blankAction].length ∧
    ((runActionsStopOnFailure failPerform [blankAction]).all
      (fun r => r.status == "pass")) = false := by
  constructor
  · rfl
  · rfl

/-- C4 — amended: `results.length ≤ actions.length`, and the lengths are
equal iff every step before the final action passed (a failure at the
final action is pushed before the loop stops, so it still yields equal
lengths). -/
theorem results_length_le_and_eq_characterization
    (perform : Nat → Action → StepOutcome) (actions : List Action) :
    (runActionsStopOnFailure perform actions).length ≤ actions.length ∧
    ((runActionsStopOnFailure perform actions).length = actions.length ↔
      allButLastOk perform 0 actions = true) :=
  ⟨runStopAux_length_le perform actions 0,
   runStopAux_length_eq_iff perform actions 0⟩

/-- C7 — counterexample to the claim as stated: the runner computes
`action.sequence || i + 1` with JS `||`, so a present-but-zero `sequence`
still falls back to the 1-based index. -/
theorem sequence_zero_falls_back :
    ((runActionsStopOnFailure passPerform [zeroSequenceAction]).map
      (fun r => r.sequence)) = [1] ∧
    zeroSequenceAction.sequence = some 0 ∧
    ((runActionsStopOnFailure passPerform [zeroSequenceAction]).map
      (fun r => r.sequence)) ≠ [0] := by
  refine ⟨rfl, rfl, ?_⟩
  decide

/-- C7 — amended: for every executed step `i`, `results[i].sequence`
equals `actions[i].sequence` when that field is present and nonzero, and
falls back to the 1-based index `i + 1` when it is absent or `0` (the
source uses `||`, under which the number 0 is falsy). -/
theorem sequence_field_js_fallback
    (perform : Nat → Action → StepOutcome) (actions : List Action) :
    (runActionsStopOnFailure perform actions).map (fun r => r.sequence) =
      (seqList 0 actions).take
        (runActionsStopOnFailure perform actions).length :=
  runStopAux_map_seq perform actions 0

/-! ### Orchestrator lemmas -/

theorem runTestCase_testCaseId (ce : CaseEnv) (tc : TestCase) :
    (runTestCase ce tc).testCaseId = tc.id := by
  unfold runTestCase
  cases htc : tc.url with
  | none => rfl
  | some u =>
      cases hn : ce.navResult with
      | error e => rfl
      | ok _ => rfl

theorem runBatchAux_map_id (cenvs : Nat → CaseEnv) :
    ∀ (tcs : List TestCase) (i : Nat),
      (runBatchAux cenvs i tcs).map (fun r => r.testCaseId) =
        tcs.map (fun tc => tc.id) := by
  intro tcs
  induction tcs with
  | nil => intro i; rfl
  | cons tc rest ih =>
      intro i
      simp only [runBatchAux, List.map_cons]
      exact congrArg₂ List.cons (runTestCase_testCaseId (cenvs i) tc)
        (ih (i + 1))

/-- C8 — confirmed.  In a batch run with `socialAuth.authTestCaseId = A`,
the list of test cases executed as regular tests is exactly the fetched
list with every test case of id `A` filtered out, in order; `A` is never
among them, and no report in the response's `testCases` carries id `A`. -/
theorem batch_excludes_auth_test_case (cenvs : Nat → CaseEnv)
    (fetched : List TestCase) (authId : Nat) :
    ((handleModuleIds cenvs fetched (some authId)).testCases.map
        (fun r => r.testCaseId) =
      (fetched.filter (fun tc => tc.id != authId)).map (fun tc => tc.id)) ∧
    ((testCasesToRun fetched (some authId)).all
      (fun tc => tc.id != authId) = true) ∧
    ((handleModuleIds cenvs fetched (some authId)).testCases.all
      (fun r => r.testCaseId != authId) = true) := by
  have hfilter : testCasesToRun fetched (some authId) =
      fetched.filter (fun tc => tc.id != authId) := rfl
  have hmap : (handleModuleIds cenvs fetched (some authId)).testCases.map
      (fun r => r.testCaseId) =
      (fetched.filter (fun tc => tc.id != authId)).map (fun tc => tc.id) := by
    show (runBatchAux cenvs 0 (testCasesToRun fetched (some authId))).map
        (fun r => r.testCaseId) = _
    rw [hfilter, runBatchAux_map_id]
  have hall : (testCasesToRun fetched (some authId)).all
      (fun tc => tc.id != authId) = true := by
    rw [hfilter]
    rw [List.all_eq_true]
    intro tc htc
    exact (List.mem_filter.mp htc).2
  refine ⟨hmap, hall, ?_⟩
  rw [List.all_eq_true]
  intro r hr
  have hmem : r.testCaseId ∈
      (fetched.filter (fun tc => tc.id != authId)).map (fun tc => tc.id) := by
    rw [← hmap]
    exact List.mem_map_of_mem _ hr
  obtain ⟨tc, htc, hid⟩ := List.mem_map.mp hmem
  have h2 := (List.mem_filter.mp htc).2
  show (r.testCaseId != authId) = true
  rw [← hid]
  exact h2

/-- C9 — confirmed.  A test case with an empty action list (that gets to
run: its navigation, if any, succeeds) produces a report with
`results = []`, `passed = failed = skipped = total = 0`, and overall
status `pass`. -/
theorem empty_actions_pass_report (ce : CaseEnv) (tc : TestCase)
    (hacts : tc.actions = [])
    (hnav : tc.url = none ∨ ce.navResult = .ok ()) :
    runTestCase ce tc = ⟨tc.id, tc.name, "pass", 0, 0, 0, 0, []⟩ := by
  have hnavOut : (match tc.url with
      | some _ => ce.navResult
      | none => Except.ok ()) = Except.ok () := by
    rcases hnav with hurl | hok
    · rw [hurl]
    · cases tc.url
      · rfl
      · exact hok
  unfold runTestCase
  rw [hnavOut, hacts]
  rfl

/-- C9 — witness: the theorem applied to a concrete empty test case with a
successful navigation. -/
theorem empty_actions_pass_report_witness :
    runTestCase emptyCaseEnv emptyTestCase =
      ⟨7, "empty", "pass", 0, 0, 0, 0, []⟩ :=
  empty_actions_pass_report emptyCaseEnv emptyTestCase rfl (Or.inr rfl)

/-! ### Assertion-evaluator lemmas -/

theorem not_any_not_success (rs : List AssertionResult) :
    (!(rs.any (fun x => x.success == false))) =
      rs.all (fun x => x.success) := by
  induction rs with
  | nil => rfl
  | cons r t ih =>
      simp only [List.any_cons, List.all_cons, Bool.not_or]
      rw [ih]
      cases hr : r.success <;> rfl

theorem runAssertionsList_dropLast_success (env : Env)
    (el : Option ElementDescriptor) :
    ∀ (entries : List (String × AssertionEntry)) (rs : List AssertionResult),
      runAssertionsList env el entries = .ok rs →
      ∀ x ∈ rs.dropLast, x.success = true := by
  intro entries
  induction entries with
  | nil =>
      intro rs h x hx
      simp only [runAssertionsList, Except.ok.injEq] at h
      subst h
      simp at hx
  | cons entry rest ih =>
      intro rs h x hx
      simp only [runAssertionsList] at h
      cases hev : evalEntry env el entry with
      | error e => simp only [hev] at h; exact absurd h (by simp)
      | ok r =>
          simp only [hev] at h
          cases hr : r.success with
          | false =>
              rw [if_neg (by simp [hr])] at h
              simp only [Except.ok.injEq] at h
              subst h
              simp at hx
          | true =>
              rw [if_pos hr] at h
              cases hrec : runAssertionsList env el rest with
              | error e => simp only [hrec] at h; exact absurd h (by simp)
              | ok rs2 =>
                  simp only [hrec] at h
                  simp only [Except.ok.injEq] at h
                  subst h
                  cases rs2 with
                  | nil => simp at hx
                  | cons y t =>
                      rw [show (r :: y :: t).dropLast =
                        r :: (y :: t).dropLast from rfl] at hx
                      rcases List.mem_cons.mp hx with hxr | hxt
                      · rw [hxr]; exact hr
                      · exact ih (y :: t) hrec x hxt

theorem runAssertionsList_all_length (env : Env)
    (el : Option ElementDescriptor) :
    ∀ (entries : List (String × AssertionEntry)) (rs : List AssertionResult),
      runAssertionsList env el entries = .ok rs →
      rs.all (fun x => x.success) = true → rs.length = entries.length := by
  intro entries
  induction entries with
  | nil =>
      intro rs h _
      simp only [runAssertionsList, Except.ok.injEq] at h
      subst h
      rfl
  | cons entry rest ih =>
      intro rs h hall
      simp only [runAssertionsList] at h
      cases hev : evalEntry env el entry with
      | error e => simp only [hev] at h; exact absurd h (by simp)
      | ok r =>
          simp only [hev] at h
          cases hr : r.success with
          | false =>
              rw [if_neg (by simp [hr])] at h
              simp only [Except.ok.injEq] at h
              subst h
              simp [hr] at hall
          | true =>
              rw [if_pos hr] at h
              cases hrec : runAssertionsList env el rest with
              | error e => simp only [hrec] at h; exact absurd h (by simp)
              | ok rs2 =>
                  simp only [hrec] at h
                  simp only [Except.ok.injEq] at h
                  subst h
                  simp only [List.all_cons, hr, Bool.true_and] at hall
                  simp only [List.length_cons, ih rs2 hrec hall]

theorem runAssertionsList_get (env : Env) (el : Option ElementDescriptor) :
    ∀ (entries : List (String × AssertionEntry)) (rs : List AssertionResult),
      runAssertionsList env el entries = .ok rs →
      ∀ k (hk : k < rs.length), ∃ entry, entries.get? k = some entry ∧
        evalEntry env el entry = .ok (rs.get ⟨k, hk⟩) := by
  intro entries
  induction entries with
  | nil =>
      intro rs h k hk
      simp only [runAssertionsList, Except.ok.injEq] at h
      subst h
      exact absurd hk (by simp)
  | cons entry rest ih =>
      intro rs h k hk
      simp only [runAssertionsList] at h
      cases hev : evalEntry env el entry with
      | error e => simp only [hev] at h; exact absurd h (by simp)
      | ok r =>
          simp only [hev] at h
          cases hr : r.success with
          | false =>
              rw [if_neg (by simp [hr])] at h
              simp only [Except.ok.injEq] at h
              subst h
              cases k with
              | zero => exact ⟨entry, rfl, hev⟩
              | succ k2 =>
                  exact absurd hk (by simp)
          | true =>
              rw [if_pos hr] at h
              cases hrec : runAssertionsList env el rest with
              | error e => simp only [hrec] at h; exact absurd h (by simp)
              | ok rs2 =>
                  simp only [hrec] at h
                  simp only [Except.ok.injEq] at h
                  subst h
                  cases k with
                  | zero => exact ⟨entry, rfl, hev⟩
                  | succ k2 =>
                      have hk2 : k2 < rs2.length := by
                        simpa using Nat.lt_of_succ_lt_succ hk
                      obtain ⟨e2, hget, heval⟩ := ih rs2 hrec k2 hk2
                      exact ⟨e2, hget, heval⟩

/-! ### Interpreter claims -/

/-- C1 — counterexample to the claim as stated: a `mousedown` on an
`isAlert` descriptor is skipped by an early `return` that bypasses the
assertion evaluator, so its step result has `success = true` and
`assertions = []` even though evaluating the action's assertions would
produce a failing result. -/
theorem mousedown_alert_skip_drops_failing_assertion :
    performAction homeTitleEnv alertMousedown [] 0 =
      ⟨true, "File input: click skipped to avoid file dialog", []⟩ ∧
    runAssertions homeTitleEnv alertMousedown alertMousedown.element =
      .ok [⟨"pageHasTitle",
            "Assertion failed: Title does not include \"zzz\"", false⟩] ∧
    (performAction homeTitleEnv alertMousedown [] 0).assertions ≠
      [⟨"pageHasTitle",
        "Assertion failed: Title does not include \"zzz\"", false⟩] :=
  ⟨rfl, rfl, by decide⟩

/-- C1 — amended: the assertion evaluator runs after every action that
falls through the dispatch switch (its results are carried on the step
result), but an action that returns early skips it: a skipped `mousedown`
(next action `fileSelect` or `isAlert` descriptor) and a `change` on an
`isAlert` descriptor return `success = true` with `assertions = []`
without evaluating the action's assertions. -/
theorem assertions_evaluated_unless_early_return (env : Env) (a : Action)
    (arr : List Action) (idx : Nat) :
    (∀ s m rs, performCore env a arr idx = .ok (.done s m) →
        runAssertions env a a.element = .ok rs →
        (performAction env a arr idx).assertions = rs) ∧
    (∀ el, a.type = "mousedown" → a.element = some el → el.isAlert = true →
        getFrameContext env a = .ok () →
        performAction env a arr idx =
          ⟨true, "File input: click skipped to avoid file dialog", []⟩) ∧
    (∀ el, a.type = "change" → a.element = some el → el.isAlert = true →
        getFrameContext env a = .ok () →
        performAction env a arr idx =
          ⟨true, "change ignore in Js popup", []⟩) := by
  refine ⟨?_, ?_, ?_⟩
  · intro s m rs h1 h2
    simp [performAction, h1, h2]
    rfl
  · intro el h1 h2 h3 h4
    have hcore : performCore env a arr idx =
        .ok (.early ⟨true, "File input: click skipped to avoid file dialog",
          []⟩) := by
      simp [performCore, h1, h2, h3, h4, Bool.or_true]
    simp [performAction, hcore]
  · intro el h1 h2 h3 h4
    have hcore : performCore env a arr idx =
        .ok (.early ⟨true, "change ignore in Js popup", []⟩) := by
      simp [performCore, h1, h2, h3, h4]
    simp [performAction, hcore]

/-- C1 — witness for the amended theorem: the skipped-`mousedown` arm
applied to a concrete alert action. -/
theorem assertions_evaluated_unless_early_return_witness :
    performAction homeTitleEnv alertMousedown [] 0 =
      ⟨true, "File input: click skipped to avoid file dialog", []⟩ :=
  (assertions_evaluated_unless_early_return homeTitleEnv alertMousedown
      [] 0).2.1 alertDescriptor rfl rfl rfl rfl

/-- C2 — confirmed.  When the dispatch falls through with the action's own
`(success, message)` and assertion evaluation completes with results `rs`:
the step result passes iff the action succeeded and every evaluated
assertion has `success = true`; on any assertion failure the message is
the first failing assertion's message instead of the action's own; the
carried `assertions` are exactly `rs`, in which every result but the last
succeeds, all entries are covered when none fails, and each result is the
evaluation of the corresponding declared assertion. -/
theorem step_pass_iff_action_and_assertions (env : Env) (a : Action)
    (arr : List Action) (idx : Nat) (s : Bool) (m : String)
    (rs : List AssertionResult)
    (hcore : performCore env a arr idx = .ok (.done s m))
    (hrs : runAssertions env a a.element = .ok rs) :
    ((performAction env a arr idx).success =
      (s && rs.all (fun x => x.success))) ∧
    ((performAction env a arr idx).assertions = rs) ∧
    ((performAction env a arr idx).message =
      if rs.any (fun x => x.success == false) then
        (match rs.find? (fun x => x.success == false) with
         | some x => if x.message = "" then "No failed assertions"
                     else x.message
         | none => "No failed assertions")
      else m) ∧
    (∀ x ∈ rs.dropLast, x.success = true) ∧
    (rs.all (fun x => x.success) = true → rs.length = a.assertions.length) ∧
    (∀ k (hk : k < rs.length), ∃ entry, a.assertions.get? k = some entry ∧
        evalEntry env a.element entry = .ok (rs.get ⟨k, hk⟩)) := by
  have hpa : performAction env a arr idx = combineAssertions s m rs := by
    simp [performAction, hcore, hrs]
  refine ⟨?_, ?_, ?_, ?_, ?_, ?_⟩
  · rw [hpa]
    show (s && !(rs.any (fun x => x.success == false))) =
      (s && rs.all (fun x => x.success))
    rw [not_any_not_success]
  · rw [hpa]; rfl
  · rw [hpa]; rfl
  · exact runAssertionsList_dropLast_success env a.element a.assertions rs hrs
  · exact runAssertionsList_all_length env a.element a.assertions rs hrs
  · exact runAssertionsList_get env a.element a.assertions rs hrs

/-- C2 — witness: a concrete `System_Navigate` whose single `pageHasTitle`
assertion passes; the step result carries exactly the evaluated result. -/
theorem step_pass_iff_action_and_assertions_witness :
    (performAction aSiteEnv navWithTitleAssertion [] 0).assertions =
      [⟨"pageHasTitle", "Title includes value", true⟩] :=
  (step_pass_iff_action_and_assertions aSiteEnv navWithTitleAssertion [] 0
      true "Navigated to https://a.com"
      [⟨"pageHasTitle", "Title includes value", true⟩] rfl rfl).2.1

theorem navPollLoop_calls_le (u : Nat → String) (e : String) :
    ∀ (fuel k : Nat), (navPollLoop u e k fuel).2 ≤ k + fuel := by
  intro fuel
  induction fuel with
  | zero => intro k; simp [navPollLoop]
  | succ f ih =>
      intro k
      simp only [navPollLoop]
      by_cases hc : (normalizeUrl (u k) == e) = true
      · rw [if_pos hc]; omega
      · rw [if_neg hc]
        have := ih (k + 1)
        omega

/-- C5 — confirmed.  A `navigate` action (once its frame is obtained)
always falls through with `success = true`: the poll loop (1 s interval,
10 s budget, hence at most 10 `frame.url()` reads) only determines whether
the message reports that the normalized current URL matches the normalized
expected URL; the comparison never fails the action itself. -/
theorem navigate_action_always_succeeds (env : Env) (a : Action)
    (arr : List Action) (idx : Nat)
    (ht : a.type = "navigate") (hf : getFrameContext env a = .ok ()) :
    (performCore env a arr idx = .ok (.done true
      (if (navPollLoop env.frameUrl (normalizeUrl (jsStr a.url)) 0 10).1 then
         "Current URL matches expected (normalized): " ++
           normalizeUrl (env.frameUrl
             (navPollLoop env.frameUrl (normalizeUrl (jsStr a.url)) 0 10).2)
       else
         "Current URL does not match expected: " ++
           normalizeUrl (env.frameUrl
             (navPollLoop env.frameUrl (normalizeUrl (jsStr a.url)) 0 10).2) ++
           " vs " ++ normalizeUrl (jsStr a.url)))) ∧
    (navPollLoop env.frameUrl (normalizeUrl (jsStr a.url)) 0 10).2 ≤ 10 := by
  constructor
  · simp [performCore, ht, hf]
  · exact navPollLoop_calls_le env.frameUrl (normalizeUrl (jsStr a.url)) 10 0

/-- C5 — witness: a concrete `navigate` whose frame URL already matches;
the action reports the match in the message and succeeds. -/
theorem navigate_action_always_succeeds_witness :
    performCore atTargetEnv navigateAction [] 0 = .ok (.done true
      "Current URL matches expected (normalized): https://a.com/") := by
  have h := (navigate_action_always_succeeds atTargetEnv navigateAction
    [] 0 rfl rfl).1
  exact h.trans (by rfl)

/-- C10 — confirmed.  `performAction` never rejects: a thrown error
anywhere in the `try` body — frame lookup, element resolution, browser
operation — and a rejection inside assertion evaluation are both caught
and converted into the structured result
`{ success: false, message: error.message, assertions: [] }`. -/
theorem performAction_errors_become_results (env : Env) (a : Action)
    (arr : List Action) (idx : Nat) :
    (∀ e, performCore env a arr idx = .error e →
        performAction env a arr idx = ⟨false, e, []⟩) ∧
    (∀ s m e, performCore env a arr idx = .ok (.done s m) →
        runAssertions env a a.element = .error e →
        performAction env a arr idx = ⟨false, e, []⟩) := by
  constructor
  · intro e h
    simp [performAction, h]
  · intro s m e h1 h2
    simp [performAction, h1, h2]

/-- C10 — witness: a `mousedown` with no element descriptor throws inside
the `try` (reading `isAlert` of `undefined`) and the caller still receives
the structured failure result. -/
theorem performAction_errors_become_results_witness :
    performAction okEnv elementlessMousedown [] 0 =
      ⟨false, "Cannot read properties of undefined (reading 'isAlert')",
        []⟩ :=
  (performAction_errors_become_results okEnv elementlessMousedown [] 0).1
    _ rfl

/-! ### URL model lemmas -/

theorem all_takeWhile_self (p : Char → Bool) (l : List Char) :
    (l.takeWhile p).all p = true := by
  induction l with
  | nil => rfl
  | cons c t ih =>
      cases hc : p c with
      | false => simp [List.takeWhile, hc]
      | true => simp [List.takeWhile, hc, ih]

theorem takeWhile_append_stop {p : Char → Bool} {l1 : List Char}
    {c : Char} (l2 : List Char) (h1 : l1.all p = true) (h2 : p c = false) :
    (l1 ++ c :: l2).takeWhile p = l1 := by
  induction l1 with
  | nil => simp [List.takeWhile, h2]
  | cons a t ih =>
      simp only [List.all_cons, Bool.and_eq_true] at h1
      simp [List.takeWhile, h1.1, ih h1.2]

theorem dropWhile_append_stop {p : Char → Bool} {l1 : List Char}
    {c : Char} (l2 : List Char) (h1 : l1.all p = true) (h2 : p c = false) :
    (l1 ++ c :: l2).dropWhile p = c :: l2 := by
  induction l1 with
  | nil => simp [List.dropWhile, h2]
  | cons a t ih =>
      simp only [List.all_cons, Bool.and_eq_true] at h1
      simp [List.dropWhile, h1.1, ih h1.2]

theorem takeWhile_of_all {p : Char → Bool} {l : List Char}
    (h : l.all p = true) : l.takeWhile p = l := by
  induction l with
  | nil => rfl
  | cons a t ih =>
      simp only [List.all_cons, Bool.and_eq_true] at h
      simp [List.takeWhile, h.1, ih h.2]

theorem dropWhile_of_all {p : Char → Bool} {l : List Char}
    (h : l.all p = true) : l.dropWhile p = [] := by
  induction l with
  | nil => rfl
  | cons a t ih =>
      simp only [List.all_cons, Bool.and_eq_true] at h
      simp [List.dropWhile, h.1, ih h.2]

theorem dropWhile_head_false {p : Char → Bool} :
    ∀ {l : List Char} {c : Char} {t : List Char},
      l.dropWhile p = c :: t → p c = false := by
  intro l
  induction l with
  | nil => intro c t h; exact absurd h (by simp)
  | cons a r ih =>
      intro c t h
      cases ha : p a with
      | true =>
          rw [List.dropWhile_cons_of_pos ha] at h
          exact ih h
      | false =>
          rw [List.dropWhile_cons_of_neg (by simp [ha])] at h
          cases h
          exact ha

theorem all_dropLast {p : Char → Bool} :
    ∀ {l : List Char}, l.all p = true → l.dropLast.all p = true := by
  intro l
  induction l with
  | nil => intro h; rfl
  | cons a t ih =>
      intro h
      simp only [List.all_cons, Bool.and_eq_true] at h
      cases t with
      | nil => rfl
      | cons b t2 =>
          rw [show (a :: b :: t2).dropLast = a :: (b :: t2).dropLast from rfl]
          simp only [List.all_cons, Bool.and_eq_true]
          exact ⟨h.1, by simpa using ih h.2⟩

theorem schemeChar_ne_colon {c : Char} (h : schemeChar c = true) :
    ¬(c = ':') := by
  intro he
  subst he
  exact absurd h (by decide)

theorem splitScheme_append {sch : List Char} (rest : List Char)
    (h : sch.all schemeChar = true) :
    splitScheme (sch ++ ':' :: '/' :: '/' :: rest) = some (sch, rest) := by
  induction sch with
  | nil => simp [splitScheme]
  | cons c t ih =>
      simp only [List.all_cons, Bool.and_eq_true] at h
      rw [List.cons_append, splitScheme.eq_def]
      simp only [if_neg (schemeChar_ne_colon h.1)]
      rw [ih h.2]
      rfl

theorem authChar_false_slash {c : Char} (h1 : authChar c = false)
    (h2 : pathChar c = true) : c = '/' := by
  by_contra hne
  simp only [authChar, Bool.and_eq_false_iff, bne_eq_false_iff_eq] at h1
  simp only [pathChar, Bool.and_eq_true, bne_iff_ne] at h2
  rcases h1 with h1 | h1
  · rcases h1 with h1 | h1
    · exact hne h1
    · exact h2.1 h1
  · exact h2.2 h1

theorem parseQueryFrag_query_all :
    ∀ (l : List Char) (q : List Char),
      (parseQueryFrag l).1 = some q → q.all queryChar = true := by
  intro l q h
  unfold parseQueryFrag at h
  split at h
  · exact absurd h (by simp)
  · rename_i qs
    split at h
    · simp only [Option.some.injEq] at h
      subst h
      exact all_takeWhile_self queryChar qs
    · simp only [Option.some.injEq] at h
      subst h
      exact all_takeWhile_self queryChar qs
  · exact absurd h (by simp)
  · exact absurd h (by simp)

theorem path_shape (rest : List Char) :
    ∃ p', (if ((rest.dropWhile authChar).takeWhile pathChar).isEmpty = true
           then ['/'] else (rest.dropWhile authChar).takeWhile pathChar) =
      '/' :: p' := by
  cases htail : rest.dropWhile authChar with
  | nil => exact ⟨[], rfl⟩
  | cons c t =>
      have hcf : authChar c = false := dropWhile_head_false htail
      cases hpc : pathChar c with
      | false =>
          rw [List.takeWhile_cons_of_neg (by simp [hpc])]
          exact ⟨[], rfl⟩
      | true =>
          rw [List.takeWhile_cons_of_pos hpc]
          have hc : c = '/' := authChar_false_slash hcf hpc
          subst hc
          exact ⟨t.takeWhile pathChar, rfl⟩

theorem path_all (rest : List Char) :
    (if ((rest.dropWhile authChar).takeWhile pathChar).isEmpty = true
     then ['/'] else (rest.dropWhile authChar).takeWhile pathChar).all
      pathChar = true := by
  by_cases hpe : ((rest.dropWhile authChar).takeWhile pathChar).isEmpty = true
  · rw [if_pos hpe]; rfl
  · rw [if_neg hpe]; exact all_takeWhile_self pathChar _

theorem parseChars_wf {l : List Char} {u : UrlObj}
    (h : parseChars l = some u) : UrlWF u := by
  unfold parseChars at h
  cases hsp : splitScheme l with
  | none => simp only [hsp] at h; exact absurd h (by simp)
  | some p =>
      obtain ⟨sch, rest⟩ := p
      simp only [hsp] at h
      by_cases hse : sch.isEmpty = true
      · rw [if_pos hse] at h; exact absurd h (by simp)
      rw [if_neg hse] at h
      by_cases hsa : sch.all schemeChar = true
      · rw [if_neg (by simp [hsa])] at h
        by_cases hae : (rest.takeWhile authChar).isEmpty = true
        · rw [if_pos hae] at h; exact absurd h (by simp)
        rw [if_neg hae] at h
        simp only [Option.some.injEq] at h
        subst h
        exact ⟨by simpa using hse, hsa, by simpa using hae,
          all_takeWhile_self authChar rest, path_shape rest, path_all rest,
          fun q hq => parseQueryFrag_query_all _ q hq⟩
      · have hsa2 : sch.all schemeChar = false := by
          revert hsa; cases sch.all schemeChar <;> simp
        rw [hsa2] at h
        rw [if_pos (by decide)] at h
        exact absurd h (by simp)

theorem parseQueryFrag_qfChars (u : UrlObj)
    (hq : ∀ q, u.query = some q → q.all queryChar = true) :
    parseQueryFrag (qfChars u) = (u.query, u.fragment) := by
  cases hquery : u.query with
  | none =>
      cases hfrag : u.fragment with
      | none => simp [qfChars, hquery, hfrag, parseQueryFrag]
      | some f => simp [qfChars, hquery, hfrag, parseQueryFrag]
  | some q =>
      have hqa := hq q hquery
      cases hfrag : u.fragment with
      | none =>
          simp only [qfChars, hquery, hfrag, List.append_nil]
          have hdrop : List.dropWhile queryChar q = [] := dropWhile_of_all hqa
          have htake : List.takeWhile queryChar q = q := takeWhile_of_all hqa
          simp [parseQueryFrag, hdrop, htake]
      | some f =>
          simp only [qfChars, hquery, hfrag, List.cons_append]
          have hdrop : List.dropWhile queryChar (q ++ '#' :: f) = '#' :: f :=
            dropWhile_append_stop f hqa (by decide)
          have htake : List.takeWhile queryChar (q ++ '#' :: f) = q :=
            takeWhile_append_stop f hqa (by decide)
          simp [parseQueryFrag, hdrop, htake]

theorem parseUrl_urlHref (v : UrlObj) :
    parseUrl (urlHref v) = parseChars (hrefChars v) := rfl

theorem parse_hrefChars {u : UrlObj} (h : UrlWF u) :
    parseChars (hrefChars u) = some u := by
  obtain ⟨hs_ne, hs_all, ha_ne, ha_all, ⟨p2, hp⟩, hp_all, hq⟩ := h
  have hsplit : splitScheme (hrefChars u) =
      some (u.scheme, u.authority ++ (u.path ++ qfChars u)) := by
    unfold hrefChars
    exact splitScheme_append _ hs_all
  unfold parseChars
  simp only [hsplit]
  have hse2 : u.scheme.isEmpty = false := by
    cases hsc : u.scheme with
    | nil => exact absurd hsc hs_ne
    | cons a t => rfl
  rw [hse2, if_neg (by decide), hs_all]
  rw [if_neg (by decide)]
  rw [hp, List.cons_append]
  rw [takeWhile_append_stop _ ha_all (by decide : authChar '/' = false)]
  rw [dropWhile_append_stop _ ha_all (by decide : authChar '/' = false)]
  have hae2 : u.authority.isEmpty = false := by
    cases hac : u.authority with
    | nil => exact absurd hac ha_ne
    | cons a t => rfl
  rw [hae2, if_neg (by decide)]
  rw [← List.cons_append, ← hp]
  have hpq : parseQueryFrag (qfChars u) = (u.query, u.fragment) :=
    parseQueryFrag_qfChars u hq
  have hpe2 : u.path.isEmpty = false := by rw [hp]; rfl
  have hqfshape : qfChars u = [] ∨
      ∃ c t, qfChars u = c :: t ∧ pathChar c = false := by
    unfold qfChars
    cases u.query with
    | some q =>
        exact Or.inr ⟨'?', _, by rw [List.cons_append], by decide⟩
    | none =>
        cases u.fragment with
        | some f => exact Or.inr ⟨'#', f, rfl, by decide⟩
        | none => exact Or.inl rfl
  rcases hqfshape with hqe | ⟨c, t, hce, hpc⟩
  · rw [hqe] at hpq ⊢
    rw [List.append_nil, takeWhile_of_all hp_all, dropWhile_of_all hp_all,
      hpe2, if_neg (by decide), hpq]
  · rw [hce] at hpq ⊢
    rw [takeWhile_append_stop _ hp_all hpc, dropWhile_append_stop _ hp_all hpc,
      hpe2, if_neg (by decide), hpq]

theorem wf_strip {u : UrlObj} (h : UrlWF u) (hlen : 1 < u.path.length) :
    UrlWF { u with path := u.path.dropLast } := by
  obtain ⟨hs_ne, hs_all, ha_ne, ha_all, ⟨p2, hp⟩, hp_all, hq⟩ := h
  refine ⟨hs_ne, hs_all, ha_ne, ha_all, ?_, all_dropLast hp_all, hq⟩
  cases hp2c : p2 with
  | nil =>
      rw [hp, hp2c] at hlen
      exact absurd hlen (by decide)
  | cons b t =>
      refine ⟨(b :: t).dropLast, ?_⟩
      show u.path.dropLast = '/' :: (b :: t).dropLast
      rw [hp, hp2c]
      rfl

theorem strip_no_more {p : List Char} (h2s : twoSlashSuffix p = false)
    (hl : p.getLast? = some '/') :
    ¬(p.dropLast.getLast? = some '/') := by
  intro hcon
  have hne : p ≠ [] := by
    intro he; rw [he] at hl; exact absurd hl (by simp)
  have hne2 : p.dropLast ≠ [] := by
    intro he; rw [he] at hcon; exact absurd hcon (by simp)
  have hsplit : p.dropLast ++ [p.getLast hne] = p :=
    List.dropLast_append_getLast hne
  have hlast : p.getLast hne = '/' := by
    have h3 : p.getLast? = some (p.getLast hne) :=
      List.getLast?_eq_getLast p hne
    rw [h3] at hl
    injection hl
  have hrev : p.reverse = '/' :: p.dropLast.reverse := by
    conv_lhs => rw [← hsplit]
    rw [List.reverse_append, hlast]
    rfl
  have hsplit2 : p.dropLast.dropLast ++ [p.dropLast.getLast hne2] =
      p.dropLast := List.dropLast_append_getLast hne2
  have hlast2 : p.dropLast.getLast hne2 = '/' := by
    have h3 : p.dropLast.getLast? = some (p.dropLast.getLast hne2) :=
      List.getLast?_eq_getLast p.dropLast hne2
    rw [h3] at hcon
    injection hcon
  have hrev2 : p.dropLast.reverse = '/' :: p.dropLast.dropLast.reverse := by
    conv_lhs => rw [← hsplit2]
    rw [List.reverse_append, hlast2]
    rfl
  have htwo : twoSlashSuffix p = true := by
    unfold twoSlashSuffix
    rw [hrev, hrev2]
    rfl
  rw [htwo] at h2s
  cases h2s

/-- C6 — counterexample to the claim as stated: `normalizeUrl` is not
idempotent.  On `"https://x.com//a//"` the first application strips one of
the two trailing slashes (pathname `"//a//"` becomes `"//a/"`), and a
second application strips again. -/
theorem normalizeUrl_not_idempotent_double_slash :
    normalizeUrl (normalizeUrl "https://x.com//a//") ≠
      normalizeUrl "https://x.com//a//" := by
  decide

/-- C6 — amended: `normalizeUrl` strips a single trailing slash from a
non-root path (the reparsed result differs from the parse of the input
exactly in that one dropped slash), and it is idempotent for every input
that does not parse as a URL and for every URL whose path does not end in
two consecutive slashes; a path ending in `"//"` loses one slash per
application, so full idempotence fails. -/
theorem normalizeUrl_strip_and_conditional_idempotent (s : String) :
    (∀ u, parseUrl s = some u → u.path.getLast? = some '/' →
        1 < u.path.length →
        parseUrl (normalizeUrl s) = some { u with path := u.path.dropLast }) ∧
    ((match parseUrl s with
      | none => True
      | some u => twoSlashSuffix u.path = false) →
      normalizeUrl (normalizeUrl s) = normalizeUrl s) := by
  constructor
  · intro u hu hsl hlen
    have hwf : UrlWF u := parseChars_wf hu
    have hnorm : normalizeUrl s =
        urlHref { u with path := u.path.dropLast } := by
      unfold normalizeUrl
      simp only [hu]
      rw [if_pos ⟨hsl, hlen⟩]
    rw [hnorm, parseUrl_urlHref]
    exact parse_hrefChars (wf_strip hwf hlen)
  · intro hcond
    cases hu : parseUrl s with
    | none =>
        have h1 : normalizeUrl s = s := by
          unfold normalizeUrl
          simp only [hu]
        rw [h1]
        exact h1
    | some u =>
        simp only [hu] at hcond
        have hwf : UrlWF u := parseChars_wf hu
        by_cases hstrip : (u.path.getLast? = some '/' ∧ 1 < u.path.length)
        · have hwf2 : UrlWF { u with path := u.path.dropLast } :=
            wf_strip hwf hstrip.2
          have hnorm : normalizeUrl s =
              urlHref { u with path := u.path.dropLast } := by
            unfold normalizeUrl
            simp only [hu]
            rw [if_pos hstrip]
          rw [hnorm]
          have hnomore := strip_no_more hcond hstrip.1
          unfold normalizeUrl
          rw [parseUrl_urlHref]
          simp only [parse_hrefChars hwf2]
          rw [if_neg (fun hc => hnomore hc.1)]
        · have hnorm : normalizeUrl s = urlHref u := by
            unfold normalizeUrl
            simp only [hu]
            rw [if_neg hstrip]
          rw [hnorm]
          unfold normalizeUrl
          rw [parseUrl_urlHref]
          simp only [parse_hrefChars hwf]
          rw [if_neg hstrip]

/-- C6 — witness: on `"https://example.com/docs/"` the trailing slash of
the non-root path is stripped (reparsing shows path `"/docs"`), and a
second application changes nothing. -/
theorem normalizeUrl_strip_and_conditional_idempotent_witness :
    parseUrl (normalizeUrl "https://example.com/docs/") =
      some { docsUrlObj with path := docsUrlObj.path.dropLast } ∧
    normalizeUrl (normalizeUrl "https://example.com/docs/") =
      normalizeUrl "https://example.com/docs/" := by
  constructor
  · exact (normalizeUrl_strip_and_conditional_idempotent
      "https://example.com/docs/").1 docsUrlObj (by decide) (by decide)
      (by decide)
  · exact (normalizeUrl_strip_and_conditional_idempotent
      "https://example.com/docs/").2
      (by decide : twoSlashSuffix docsUrlObj.path = false)

end Evertest
